import Mathlib

/-!
# Verification of the Rentmap data-cleaning pipeline

Shallow embedding of `src/data_processor.py` (class `DataProcessor`).

Modelling conventions:
* A pandas cell is `Option _` with `none` standing for `NaN` (missing);
  numeric cells are rationals (the repository only ever loads finite CSV
  numbers into `price`, `bhk`, `area_sqft`).
* Python strings are lists of character codes (`Str := List Nat`); the
  character classes used by `str.strip`, the regex `\s+` and `str.title`
  are the ASCII ones.
* A dataframe (`Frame`) is a list of rows plus one presence flag per
  schema column, because the code branches on `col in self.df.columns`.
* Operations that can raise a pandas `KeyError` (`drop_duplicates` /
  `dropna` with a missing subset column, `mode()[0]` on an empty column,
  `df[price]` when the column is absent) return `Except PyErr _`.
* The derived column `price_per_sqft` is a float produced by a division,
  so its cells are `DVal` (finite, `+inf`, `-inf` or `NaN`): pandas
  evaluates `price / 0` to a signed infinity and `0 / 0`, `x / NaN`,
  `NaN / x` to `NaN`, without raising.  `Series.round(2)` fixes the ties
  of IEEE rounding in a way no claim depends on; the model rounds
  half-up via the Mathlib rounding function.
* `np.random.choice` in `add_furnishing_status` is modelled by an
  explicit oracle `rng : Nat → Fin 3` giving the index drawn per row.
-/

namespace Rentmap

/-! ## Character and string model -/

abbrev Str := List Nat

def isSpaceC (c : Nat) : Bool :=
  c == 32 || c == 9 || c == 10 || c == 13 || c == 11 || c == 12

def isUpperC (c : Nat) : Bool := 65 ≤ c && c ≤ 90

def isLowerC (c : Nat) : Bool := 97 ≤ c && c ≤ 122

def isAlphaC (c : Nat) : Bool := isUpperC c || isLowerC c

def toLowerC (c : Nat) : Nat := if isUpperC c then c + 32 else c

def toUpperC (c : Nat) : Nat := if isLowerC c then c - 32 else c

/-- Python `str.strip()` : drop whitespace from both ends. -/
def strip (s : Str) : Str :=
  ((s.dropWhile isSpaceC).reverse.dropWhile isSpaceC).reverse

/-- State machine for the regex substitution of runs of whitespace by a
single space : the flag records whether
the previous character was part of a whitespace run (whose single
replacement space has already been emitted). -/
def collapseAux : Bool → Str → Str
  | _, [] => []
  | prevSp, c :: cs =>
      if isSpaceC c then
        if prevSp then collapseAux true cs else 32 :: collapseAux true cs
      else c :: collapseAux false cs

def collapse (s : Str) : Str := collapseAux false s

/-- State machine for Python `str.title()` : the flag records whether the
previous character was cased (a letter). -/
def titleAux : Bool → Str → Str
  | _, [] => []
  | prev, c :: cs =>
      if isAlphaC c then
        (if prev then toLowerC c else toUpperC c) :: titleAux true cs
      else c :: titleAux false cs

def titlecase (s : Str) : Str := titleAux false s

/-- Effect of `clean_text_fields` on one non-null `title` cell:
`.str.strip()` then the regex replacement of whitespace runs. -/
def normT (s : Str) : Str := collapse (strip s)

/-- Effect of `clean_text_fields` on one non-null `location` cell: strip, collapse,
then `.str.title()`. -/
def normL (s : Str) : Str := titlecase (normT s)

/-! ## Numeric statistics (pandas `quantile`, `median`, `mode`) -/

def sortR (l : List Rat) : List Rat := List.insertionSort (fun a b => a ≤ b) l

/-- Linear interpolation at position `i + num/den` of a sorted list:
the common core of pandas `Series.quantile(q)` with linear interpolation
at `q*(n-1) = i + num/den` and of `Series.median`. -/
def interpAt (s : List Rat) (i : Nat) (num den : Nat) : Rat :=
  let lo := s.getD i 0
  let hi := s.getD (i + 1) lo
  lo + ((num : Rat) / (den : Rat)) * (hi - lo)

/-- 25th percentile of a sorted nonempty list: position `(n-1)/4`. -/
def q1Of (s : List Rat) : Rat :=
  interpAt s ((s.length - 1) / 4) ((s.length - 1) % 4) 4

/-- 75th percentile of a sorted nonempty list: position `3(n-1)/4`. -/
def q3Of (s : List Rat) : Rat :=
  interpAt s ((3 * (s.length - 1)) / 4) ((3 * (s.length - 1)) % 4) 4

/-- Median of a sorted nonempty list: position `(n-1)/2`. -/
def medOf (s : List Rat) : Rat :=
  interpAt s ((s.length - 1) / 2) ((s.length - 1) % 2) 2

/-- Pandas `Series.median()` over the non-missing values; `NaN` (`none`) when
there are none. -/
def medianOpt (vals : List Rat) : Option Rat :=
  if vals.isEmpty then none else some (medOf (sortR vals))

/-- Pandas `Series.mode()[0]` when it exists: the smallest value of maximal
multiplicity (pandas sorts the modes ascending, `[0]` picks the least).
`none` when the column has no values, in which case `mode()` is empty
and `[0]` raises `KeyError`. -/
def modeLow (vals : List Rat) : Option Rat :=
  match vals with
  | [] => none
  | v :: _ =>
      some (vals.foldl
        (fun best x =>
          if vals.count x > vals.count best ∨
             (vals.count x = vals.count best ∧ x < best)
          then x else best) v)

/-- Python `round(x, 2)` on a finite float cell, modelled on rationals. -/
def round2 (q : Rat) : Rat := ((round (100 * q) : Int) : Rat) / 100

/-! ## Cells, rows and frames -/

/-- A float cell of the derived `price_per_sqft` column. `nan` is what
pandas treats as a missing value; the infinities are not missing. -/
inductive DVal
  | nan
  | fin (q : Rat)
  | pinf
  | ninf
deriving DecidableEq

/-- The three furnishing strings of `add_furnishing_status`. -/
inductive Furn
  | unfurnished
  | semiFurnished
  | fullyFurnished
deriving DecidableEq

structure Row where
  title : Option Str
  location : Option Str
  price : Option Rat
  bhk : Option Rat
  area_sqft : Option Rat
  furnishing : Option Furn
  pps : DVal
deriving DecidableEq

def row0 : Row := ⟨none, none, none, none, none, none, DVal.nan⟩

structure Frame where
  hasTitle : Bool
  hasLocation : Bool
  hasPrice : Bool
  hasBhk : Bool
  hasArea : Bool
  hasFurnishing : Bool
  hasPps : Bool
  rows : List Row
deriving DecidableEq

inductive PyErr
  | keyErr
deriving DecidableEq

instance {ε α : Type} [DecidableEq ε] [DecidableEq α] :
    DecidableEq (Except ε α) := fun x y =>
  match x, y with
  | .ok a, .ok b =>
      if h : a = b then isTrue (by rw [h])
      else isFalse (by intro hc; cases hc; exact h rfl)
  | .error a, .error b =>
      if h : a = b then isTrue (by rw [h])
      else isFalse (by intro hc; cases hc; exact h rfl)
  | .ok _, .error _ => isFalse (by intro hc; cases hc)
  | .error _, .ok _ => isFalse (by intro hc; cases hc)

/-- The four warning strings collected by `validate_data`. -/
inductive Issue
  | negPrice
  | negArea
  | lowPrice
  | highPrice
deriving DecidableEq

/-! ## Pipeline stages (`DataProcessor` methods) -/

/-- The `drop_duplicates` identity key (subset title, location);
pandas compares `NaN` keys equal for deduplication. -/
def rowKey (r : Row) : Option Str × Option Str := (r.title, r.location)

/-- Pandas `drop_duplicates(..., keep=first)` : keep each row whose key has
not been seen before, scanning in order. -/
def dedupAux : List Row → List (Option Str × Option Str) → List Row
  | [], _ => []
  | r :: rs, seen =>
      if rowKey r ∈ seen then dedupAux rs seen
      else r :: dedupAux rs (rowKey r :: seen)

/-- Method `DataProcessor.remove_duplicates`; `drop_duplicates` raises
`KeyError` when a subset column is absent from the frame. -/
def remove_duplicates (df : Frame) : Except PyErr Frame :=
  if df.hasTitle && df.hasLocation then
    .ok { df with rows := dedupAux df.rows [] }
  else .error .keyErr

/-- The drop phase of `handle_missing_values`:
`dropna` on the subset title, price, location. -/
def dropCritical (rows : List Row) : List Row :=
  rows.filter fun r => r.title.isSome && r.price.isSome && r.location.isSome

/-- Pandas `fillna(m)` on the `bhk` cell of one row. -/
def fillBhkRow (m : Rat) (r : Row) : Row := { r with bhk := some (r.bhk.getD m) }

/-- Pandas `fillna(m)` on the `area_sqft` cell of one row. -/
def fillAreaRow (m : Rat) (r : Row) : Row :=
  { r with area_sqft := some (r.area_sqft.getD m) }

/-- The `area_sqft` imputation step of `handle_missing_values`:
`fillna(median)`; the median of an empty column is `NaN` and
`fillna(NaN)` is a no-op. -/
def areaStep (df : Frame) (rows : List Row) : Frame :=
  if df.hasArea then
    match medianOpt (rows.filterMap (fun r => r.area_sqft)) with
    | some m => { df with rows := rows.map (fillAreaRow m) }
    | none => { df with rows := rows }
  else { df with rows := rows }

/-- Method `DataProcessor.handle_missing_values`: drop rows missing a critical
field, then fill `bhk` with `mode()[0]` (KeyError when the column is
present but has no values) and `area_sqft` with the median.
`dropna(subset=...)` raises `KeyError` when a critical column is absent. -/
def handle_missing_values (df : Frame) : Except PyErr Frame :=
  if df.hasTitle && df.hasPrice && df.hasLocation then
    let rows1 := dropCritical df.rows
    if df.hasBhk then
      match modeLow (rows1.filterMap (fun r => r.bhk)) with
      | some m => .ok (areaStep df (rows1.map (fillBhkRow m)))
      | none => .error .keyErr
    else .ok (areaStep df rows1)
  else .error .keyErr

/-- The pre-filter outlier bounds of `clean_price`:
`[Q1 - 3*IQR, Q3 + 3*IQR]` of the non-missing prices; `none` (both
bounds `NaN`) when there is no price value. -/
def priceBounds (df : Frame) : Option (Rat × Rat) :=
  let prices := df.rows.filterMap fun r => r.price
  if prices.isEmpty then none
  else
    let s := sortR prices
    let iqr := q3Of s - q1Of s
    some (q1Of s - 3 * iqr, q3Of s + 3 * iqr)

/-- The boolean mask `(price >= lower) & (price <= upper)`; any
comparison against `NaN` is `False`. -/
def keepRow (bnds : Option (Rat × Rat)) (r : Row) : Bool :=
  match r.price, bnds with
  | some q, some (lo, hi) => decide (lo ≤ q) && decide (q ≤ hi)
  | _, _ => false

/-- Method `DataProcessor.clean_price`: no-op without a `price` column, else
keep the rows inside the IQR bounds of the pre-filter distribution. -/
def clean_price (df : Frame) : Frame :=
  if df.hasPrice then
    { df with rows := df.rows.filter (keepRow (priceBounds df)) }
  else df

/-- Effect of `clean_text_fields` on one row, given which text columns exist;
the pandas `.str` accessors map `NaN` to `NaN`. -/
def normRow (hT hL : Bool) (r : Row) : Row :=
  { r with
      title := if hT then r.title.map normT else r.title
      location := if hL then r.location.map normL else r.location }

/-- Method `DataProcessor.clean_text_fields`. -/
def clean_text_fields (df : Frame) : Frame :=
  { df with rows := df.rows.map (normRow df.hasTitle df.hasLocation) }

/-- Float division of the `price` and `area_sqft` cells as numpy
performs it: `p/0` is a signed infinity for `p ≠ 0`, `0/0` and any
division involving `NaN` is `NaN`. -/
def fdiv : Option Rat → Option Rat → DVal
  | some p, some a =>
      if a = 0 then
        if 0 < p then .pinf else if p < 0 then .ninf else .nan
      else .fin (p / a)
  | _, _ => .nan

/-- Pandas `Series.round(2)` on one derived cell: infinities and `NaN` pass
through. -/
def round2D : DVal → DVal
  | .fin q => .fin (round2 q)
  | v => v

/-- Effect of `calculate_derived_metrics` on one row:
`(price / area_sqft).round(2)`. -/
def ppsRow (r : Row) : Row := { r with pps := round2D (fdiv r.price r.area_sqft) }

/-- Method `DataProcessor.calculate_derived_metrics`: only runs when both the
`price` and `area_sqft` columns exist. -/
def calculate_derived_metrics (df : Frame) : Frame :=
  if df.hasPrice && df.hasArea then
    { df with hasPps := true, rows := df.rows.map ppsRow }
  else df

/-- The list `furnishing_options` of `add_furnishing_status`. -/
def furnishing_options : List Furn :=
  [.unfurnished, .semiFurnished, .fullyFurnished]

/-- Indexing into `furnishing_options` with the drawn index. -/
def furnOf : Fin 3 → Furn
  | 0 => .unfurnished
  | 1 => .semiFurnished
  | 2 => .fullyFurnished

/-- Effect of `add_furnishing_status` on one row: `np.random.choice` drew index
`rng i` for row `i`. -/
def backfillRow (rng : Nat → Fin 3) (i : Nat) (r : Row) : Row :=
  { r with furnishing := some (furnOf (rng i)) }

/-- Method `DataProcessor.add_furnishing_status`: a no-op when the column
exists, else synthesize it per row from the random oracle. -/
def add_furnishing_status (df : Frame) (rng : Nat → Fin 3) : Frame :=
  if df.hasFurnishing then df
  else { df with hasFurnishing := true, rows := df.rows.mapIdx (backfillRow rng) }

/-- One numeric cell satisfies a strict comparison; `NaN` compares
`False`. -/
def cellLt (c : Option Rat) (b : Rat) : Bool :=
  match c with
  | some q => decide (q < b)
  | none => false

def cellGt (c : Option Rat) (b : Rat) : Bool :=
  match c with
  | some q => decide (b < q)
  | none => false

/-- Method `DataProcessor.validate_data`: read-only checks collecting warning
strings in source order.  It indexes the price column unconditionally,
so a frame without a `price` column raises `KeyError`. -/
def validate_data (df : Frame) : Except PyErr (Frame × List Issue) :=
  if df.hasPrice then
    let i1 := if df.rows.any fun r => cellLt r.price 0 then [Issue.negPrice] else []
    let i2 := if df.hasArea && df.rows.any fun r => cellLt r.area_sqft 0 then
        [Issue.negArea] else []
    let i3 := if df.rows.any fun r => cellLt r.price 1000 then [Issue.lowPrice] else []
    let i4 := if df.rows.any fun r => cellGt r.price 10000000 then
        [Issue.highPrice] else []
    .ok (df, i1 ++ i2 ++ i3 ++ i4)
  else .error .keyErr

/-- Method `DataProcessor.process_all`: the stage composition, propagating any
pandas exception. -/
def process_all (df : Frame) (rng : Nat → Fin 3) :
    Except PyErr (Frame × List Issue) := do
  let d1 ← remove_duplicates df
  let d2 ← handle_missing_values d1
  let d3 := clean_price d2
  let d4 := clean_text_fields d3
  let d5 := calculate_derived_metrics d4
  let d6 := add_furnishing_status d5 rng
  validate_data d6

/-! ## Auxiliary predicates used by the proofs -/

/-- The first character, if any, is not whitespace. -/
def headNotSpace (s : Str) : Bool :=
  match s.head? with
  | some c => !isSpaceC c
  | none => true

/-- The last character, if any, is not whitespace. -/
def lastNotSpace (s : Str) : Bool :=
  match s.getLast? with
  | some c => !isSpaceC c
  | none => true

/-- Every whitespace character is the plain space 32 and is followed by a
non-whitespace character (no run of length two). -/
def packedB : Str → Bool
  | [] => true
  | c :: cs => (if isSpaceC c then c == 32 && headNotSpace cs else true) && packedB cs

/-- A row whose text cells are fixed points of the Text Normalizer. -/
def rowTextNormed (r : Row) : Bool :=
  (match r.title with
   | some t => normT t == t
   | none => true) &&
  (match r.location with
   | some l => normL l == l
   | none => true)

/-! ## Loader -/

inductive LoadErr
  | noInput
  | readFail
deriving DecidableEq

/-- Method `DataProcessor.load_data`: `read` models `pd.read_csv` (`none` for an
unreadable source).  The method performs no column validation. -/
def load_data (filepath input_file : Option String)
    (read : String → Option Frame) : Except LoadErr Frame :=
  match filepath with
  | some f => (read f).elim (.error .readFail) .ok
  | none =>
      match input_file with
      | some f => (read f).elim (.error .readFail) .ok
      | none => .error .noInput

/-! ## The Missing-Value Resolver as the spec words it -/

/-- Fill a missing `bhk` when an imputation value exists. -/
def fillOptBhk (m : Option Rat) (r : Row) : Row :=
  match m with
  | some v => fillBhkRow v r
  | none => r

/-- Fill a missing `area_sqft` when an imputation value exists. -/
def fillOptArea (m : Option Rat) (r : Row) : Row :=
  match m with
  | some v => fillAreaRow v r
  | none => r

/-- The Missing-Value Resolver as spec section 4.2 words it: drop every
record missing a critical field, then impute `bhk` from the mode and
`area_sqft` from the median, both statistics computed over the data
remaining after the drop phase; imputation of an absent column is
skipped. -/
def resolverSpec (df : Frame) : Frame :=
  let d := dropCritical df.rows
  let mB := if df.hasBhk then modeLow (d.filterMap (fun r => r.bhk)) else none
  let mA := if df.hasArea then medianOpt (d.filterMap (fun r => r.area_sqft)) else none
  { df with rows := d.map (fun r => fillOptArea mA (fillOptBhk mB r)) }

/-! ## Concrete frames used as counterexamples and witnesses -/

/-- A deterministic stand-in for the random furnishing draws. -/
def rngZero : Nat → Fin 3 := fun _ => 0

/-- Two records that differ only by a trailing space in the title
("A " vs "A", both at location "X"). -/
def frameC1 : Frame :=
  ⟨true, true, true, false, false, false, false,
    [⟨some [65, 32], some [88], some 5000, none, none, none, .nan⟩,
     ⟨some [65], some [88], some 5000, none, none, none, .nan⟩]⟩

/-- What the pipeline produces from `frameC1`: both records survive and
end up with the identical normalized (title, location) pair. -/
def frameC1out : Frame :=
  ⟨true, true, true, false, false, true, false,
    [⟨some [65], some [88], some 5000, none, none, some .unfurnished, .nan⟩,
     ⟨some [65], some [88], some 5000, none, none, some .unfurnished, .nan⟩]⟩

/-- An empty dataset whose columns include `bhk`. -/
def frameEmptyBhk : Frame := ⟨true, true, true, true, true, false, false, []⟩

/-- One record with `price = 800` and `area_sqft = 0`. -/
def frameC3 : Frame :=
  ⟨true, true, true, false, true, false, false,
    [⟨some [65], some [88], some 800, none, some 0, none, .nan⟩]⟩

/-- One record whose `furnishing` cell is missing while the column
exists. -/
def frameC5 : Frame :=
  ⟨true, true, true, false, false, true, false,
    [⟨some [65], some [88], some 5000, none, none, none, .nan⟩]⟩

/-- What the pipeline produces from `frameC5`: the missing furnishing
survives to the final dataset. -/
def frameC5out : Frame :=
  ⟨true, true, true, false, false, true, false,
    [⟨some [65], some [88], some 5000, none, none, none, .nan⟩]⟩

/-- A readable source that lacks the required `title` column. -/
def frameNoTitle : Frame := ⟨false, true, true, false, false, false, false, []⟩

/-- Input for the C7 witness: one complete record, one record missing
its title, one record with `bhk` missing. -/
def frameC7w : Frame :=
  ⟨true, true, true, true, false, false, false,
    [⟨some [65], some [88], some 5000, some 2, none, none, .nan⟩,
     ⟨none, some [88], some 6000, some 3, none, none, .nan⟩,
     ⟨some [66], some [88], some 7000, none, none, none, .nan⟩]⟩

/-- Output of the Missing-Value Resolver on `frameC7w`. -/
def frameC7out : Frame :=
  ⟨true, true, true, true, false, false, false,
    [⟨some [65], some [88], some 5000, some 2, none, none, .nan⟩,
     ⟨some [66], some [88], some 7000, some 2, none, none, .nan⟩]⟩

/-- Input for the C9 and C10 witnesses: two plain records without a
furnishing column. -/
def frameC9w : Frame :=
  ⟨true, true, true, false, false, false, false,
    [⟨some [65], some [88], some 5000, none, none, none, .nan⟩,
     ⟨some [66], some [89], some 6000, none, none, none, .nan⟩]⟩

/-- Normalized-input frame for the C1 and C5 amended-claim witnesses. -/
def frameC1w : Frame :=
  ⟨true, true, true, false, false, false, false,
    [⟨some [65], some [88], some 5000, none, none, none, .nan⟩,
     ⟨some [66], some [88], some 5000, none, none, none, .nan⟩]⟩

/-- Pipeline output on `frameC1w`. -/
def frameC1wOut : Frame :=
  ⟨true, true, true, false, false, true, false,
    [⟨some [65], some [88], some 5000, none, none, some .unfurnished, .nan⟩,
     ⟨some [66], some [88], some 5000, none, none, some .unfurnished, .nan⟩]⟩

/-! ## Character-class lemmas -/

theorem isSpaceC_iff (c : Nat) :
    isSpaceC c = true ↔ c = 32 ∨ c = 9 ∨ c = 10 ∨ c = 13 ∨ c = 11 ∨ c = 12 := by
  simp only [isSpaceC, Bool.or_eq_true, beq_iff_eq]
  tauto

theorem isSpaceC_toLowerC (c : Nat) : isSpaceC (toLowerC c) = isSpaceC c := by
  unfold toLowerC
  split
  · next h =>
    simp only [isUpperC, Bool.and_eq_true, decide_eq_true_eq] at h
    have h1 : isSpaceC (c + 32) = false := by
      simp only [isSpaceC, Bool.or_eq_false_iff, beq_eq_false_iff_ne, ne_eq]
      omega
    have h2 : isSpaceC c = false := by
      simp only [isSpaceC, Bool.or_eq_false_iff, beq_eq_false_iff_ne, ne_eq]
      omega
    rw [h1, h2]
  · rfl

theorem isSpaceC_toUpperC (c : Nat) : isSpaceC (toUpperC c) = isSpaceC c := by
  unfold toUpperC
  split
  · next h =>
    simp only [isLowerC, Bool.and_eq_true, decide_eq_true_eq] at h
    have h1 : isSpaceC (c - 32) = false := by
      simp only [isSpaceC, Bool.or_eq_false_iff, beq_eq_false_iff_ne, ne_eq]
      omega
    have h2 : isSpaceC c = false := by
      simp only [isSpaceC, Bool.or_eq_false_iff, beq_eq_false_iff_ne, ne_eq]
      omega
    rw [h1, h2]
  · rfl

theorem isAlphaC_toLowerC (c : Nat) : isAlphaC (toLowerC c) = isAlphaC c := by
  unfold toLowerC
  split
  · next h =>
    simp only [isUpperC, Bool.and_eq_true, decide_eq_true_eq] at h
    have h1 : isAlphaC (c + 32) = true := by
      simp only [isAlphaC, isUpperC, isLowerC, Bool.or_eq_true, Bool.and_eq_true,
        decide_eq_true_eq]
      omega
    have h2 : isAlphaC c = true := by
      simp only [isAlphaC, isUpperC, isLowerC, Bool.or_eq_true, Bool.and_eq_true,
        decide_eq_true_eq]
      omega
    rw [h1, h2]
  · rfl

theorem isAlphaC_toUpperC (c : Nat) : isAlphaC (toUpperC c) = isAlphaC c := by
  unfold toUpperC
  split
  · next h =>
    simp only [isLowerC, Bool.and_eq_true, decide_eq_true_eq] at h
    have h1 : isAlphaC (c - 32) = true := by
      simp only [isAlphaC, isUpperC, isLowerC, Bool.or_eq_true, Bool.and_eq_true,
        decide_eq_true_eq]
      omega
    have h2 : isAlphaC c = true := by
      simp only [isAlphaC, isUpperC, isLowerC, Bool.or_eq_true, Bool.and_eq_true,
        decide_eq_true_eq]
      omega
    rw [h1, h2]
  · rfl

theorem toLowerC_toLowerC (c : Nat) : toLowerC (toLowerC c) = toLowerC c := by
  unfold toLowerC
  split
  · next h =>
    simp only [isUpperC, Bool.and_eq_true, decide_eq_true_eq] at h
    have : isUpperC (c + 32) = false := by
      simp only [isUpperC, Bool.and_eq_false_iff, decide_eq_false_iff_not]
      omega
    simp [this]
  · rfl

theorem toUpperC_toUpperC (c : Nat) : toUpperC (toUpperC c) = toUpperC c := by
  unfold toUpperC
  split
  · next h =>
    simp only [isLowerC, Bool.and_eq_true, decide_eq_true_eq] at h
    have : isLowerC (c - 32) = false := by
      simp only [isLowerC, Bool.and_eq_false_iff, decide_eq_false_iff_not]
      omega
    simp [this]
  · rfl

theorem isSpaceC_of_alpha (c : Nat) (h : isAlphaC c = true) : isSpaceC c = false := by
  simp only [isAlphaC, isUpperC, isLowerC, Bool.or_eq_true, Bool.and_eq_true,
    decide_eq_true_eq] at h
  simp only [isSpaceC, Bool.or_eq_false_iff, beq_eq_false_iff_ne, ne_eq]
  omega

/-! ## String-normalization lemmas -/

theorem lastNotSpace_eq_reverse (s : Str) : lastNotSpace s = headNotSpace s.reverse := by
  unfold lastNotSpace headNotSpace
  rw [List.head?_reverse]

theorem lastNotSpace_cons_of_ne {c : Nat} {w : Str} (hw : w ≠ []) :
    lastNotSpace (c :: w) = lastNotSpace w := by
  obtain ⟨x, xs, rfl⟩ := List.exists_cons_of_ne_nil hw
  unfold lastNotSpace
  rw [List.getLast?_cons_cons]

theorem headNotSpace_dropWhile (s : Str) :
    headNotSpace (s.dropWhile isSpaceC) = true := by
  induction s with
  | nil => rfl
  | cons c cs ih =>
    rw [List.dropWhile_cons]
    split
    · exact ih
    · next h =>
      simp only [Bool.not_eq_true] at h
      simp [headNotSpace, h]

theorem headNotSpace_of_pre {s t : Str} (h : s <+: t)
    (ht : headNotSpace t = true) : headNotSpace s = true := by
  cases s with
  | nil => rfl
  | cons c cs =>
    obtain ⟨u, hu⟩ := h
    rw [← hu] at ht
    simpa [headNotSpace] using ht

theorem headNotSpace_strip (s : Str) : headNotSpace (strip s) = true := by
  unfold strip
  apply headNotSpace_of_pre (t := s.dropWhile isSpaceC)
  · obtain ⟨u, hu⟩ :=
      List.dropWhile_suffix (l := (s.dropWhile isSpaceC).reverse) isSpaceC
    refine ⟨u.reverse, ?_⟩
    rw [← List.reverse_append, hu, List.reverse_reverse]
  · exact headNotSpace_dropWhile s

theorem lastNotSpace_strip (s : Str) : lastNotSpace (strip s) = true := by
  rw [lastNotSpace_eq_reverse]
  unfold strip
  rw [List.reverse_reverse]
  exact headNotSpace_dropWhile _

theorem dropWhile_eq_self_of_headNotSpace {s : Str} (h : headNotSpace s = true) :
    s.dropWhile isSpaceC = s := by
  cases s with
  | nil => rfl
  | cons c cs =>
    have hc : isSpaceC c = false := by simpa [headNotSpace] using h
    simp [List.dropWhile_cons, hc]

theorem strip_eq_self {s : Str} (h1 : headNotSpace s = true)
    (h2 : lastNotSpace s = true) : strip s = s := by
  unfold strip
  rw [dropWhile_eq_self_of_headNotSpace h1]
  rw [dropWhile_eq_self_of_headNotSpace (by rwa [← lastNotSpace_eq_reverse])]
  exact List.reverse_reverse s

theorem collapseAux_cons (b : Bool) (c : Nat) (cs : Str) :
    collapseAux b (c :: cs) =
      if isSpaceC c then
        if b then collapseAux true cs else 32 :: collapseAux true cs
      else c :: collapseAux false cs := rfl

theorem collapseAux_headNotSpace {s : Str} (b : Bool)
    (h : headNotSpace s = true) : headNotSpace (collapseAux b s) = true := by
  cases s with
  | nil => cases b <;> rfl
  | cons c cs =>
    have hc : isSpaceC c = false := by simpa [headNotSpace] using h
    rw [collapseAux_cons, if_neg (by simp [hc])]
    simp [headNotSpace, hc]

theorem headNotSpace_collapseAux_true (s : Str) :
    headNotSpace (collapseAux true s) = true := by
  induction s with
  | nil => rfl
  | cons c cs ih =>
    rw [collapseAux_cons]
    by_cases hc : isSpaceC c = true
    · rw [if_pos (by simp [hc]), if_pos rfl]
      exact ih
    · simp only [Bool.not_eq_true] at hc
      rw [if_neg (by simp [hc])]
      simp [headNotSpace, hc]

theorem collapseAux_ne_nil (s : Str) :
    ∀ b : Bool, lastNotSpace s = true → s ≠ [] → collapseAux b s ≠ [] := by
  induction s with
  | nil => intro b _ hne; exact absurd rfl hne
  | cons c cs ih =>
    intro b h _
    rw [collapseAux_cons]
    cases cs with
    | nil =>
      have hc : isSpaceC c = false := by simpa [lastNotSpace] using h
      rw [if_neg (by simp [hc])]
      simp
    | cons d ds =>
      have h2 : lastNotSpace (d :: ds) = true := by
        rwa [lastNotSpace_cons_of_ne (by simp)] at h
      by_cases hc : isSpaceC c = true
      · rw [if_pos (by simp [hc])]
        cases b with
        | true =>
          rw [if_pos rfl]
          exact ih true h2 (by simp)
        | false =>
          rw [if_neg (by simp)]
          simp
      · simp only [Bool.not_eq_true] at hc
        rw [if_neg (by simp [hc])]
        simp

theorem collapseAux_lastNotSpace (s : Str) :
    ∀ b : Bool, lastNotSpace s = true → lastNotSpace (collapseAux b s) = true := by
  induction s with
  | nil => intro b _; cases b <;> rfl
  | cons c cs ih =>
    intro b h
    rw [collapseAux_cons]
    cases cs with
    | nil =>
      have hc : isSpaceC c = false := by simpa [lastNotSpace] using h
      rw [if_neg (by simp [hc])]
      simpa using h
    | cons d ds =>
      have h2 : lastNotSpace (d :: ds) = true := by
        rwa [lastNotSpace_cons_of_ne (by simp)] at h
      have hne : collapseAux true (d :: ds) ≠ [] :=
        collapseAux_ne_nil _ true h2 (by simp)
      have hne2 : collapseAux false (d :: ds) ≠ [] :=
        collapseAux_ne_nil _ false h2 (by simp)
      by_cases hc : isSpaceC c = true
      · rw [if_pos (by simp [hc])]
        cases b with
        | true =>
          rw [if_pos rfl]
          exact ih true h2
        | false =>
          rw [if_neg (by simp)]
          rw [lastNotSpace_cons_of_ne hne]
          exact ih true h2
      · simp only [Bool.not_eq_true] at hc
        rw [if_neg (by simp [hc])]
        rw [lastNotSpace_cons_of_ne hne2]
        exact ih false h2

theorem packedB_collapseAux (s : Str) :
    ∀ b : Bool, packedB (collapseAux b s) = true := by
  induction s with
  | nil => intro b; cases b <;> rfl
  | cons c cs ih =>
    intro b
    rw [collapseAux_cons]
    by_cases hc : isSpaceC c = true
    · rw [if_pos (by simp [hc])]
      cases b with
      | true =>
        rw [if_pos rfl]
        exact ih true
      | false =>
        rw [if_neg (by simp)]
        simp only [packedB, Bool.and_eq_true]
        refine ⟨?_, ih true⟩
        simp [headNotSpace_collapseAux_true]
    · simp only [Bool.not_eq_true] at hc
      rw [if_neg (by simp [hc])]
      simp only [packedB, hc, Bool.true_eq_false, if_false, Bool.true_and]
      exact ih false

theorem collapseAux_eq_self (s : Str) :
    packedB s = true →
      collapseAux false s = s ∧
        (headNotSpace s = true → collapseAux true s = s) := by
  induction s with
  | nil => intro _; exact ⟨rfl, fun _ => rfl⟩
  | cons c cs ih =>
    intro h
    simp only [packedB, Bool.and_eq_true] at h
    obtain ⟨hcond, hcs⟩ := h
    by_cases hc : isSpaceC c = true
    · rw [if_pos hc] at hcond
      simp only [Bool.and_eq_true, beq_iff_eq] at hcond
      obtain ⟨hc32, hhead⟩ := hcond
      constructor
      · rw [collapseAux_cons, if_pos (by simp [hc]), if_neg (by simp)]
        rw [(ih hcs).2 hhead, hc32]
      · intro hh
        exfalso
        simp [headNotSpace, hc] at hh
    · simp only [Bool.not_eq_true] at hc
      constructor
      · rw [collapseAux_cons, if_neg (by simp [hc])]
        rw [(ih hcs).1]
      · intro _
        rw [collapseAux_cons, if_neg (by simp [hc])]
        rw [(ih hcs).1]

theorem titleAux_cons_form (c : Nat) (cs : Str) (b : Bool) :
    titleAux b (c :: cs) =
      (if isAlphaC c then (if b then toLowerC c else toUpperC c) else c) ::
        titleAux (isAlphaC c) cs := by
  by_cases hA : isAlphaC c = true
  · simp [titleAux, hA]
  · simp only [Bool.not_eq_true] at hA
    simp [titleAux, hA]

theorem headNotSpace_titleAux (s : Str) (b : Bool) :
    headNotSpace (titleAux b s) = headNotSpace s := by
  cases s with
  | nil => rfl
  | cons c cs =>
    rw [titleAux_cons_form]
    by_cases hA : isAlphaC c = true
    · cases b with
      | true => simp [hA, headNotSpace, isSpaceC_toLowerC]
      | false => simp [hA, headNotSpace, isSpaceC_toUpperC]
    · simp only [Bool.not_eq_true] at hA
      simp [hA, headNotSpace]

theorem titleAux_ne_nil (c : Nat) (cs : Str) (b : Bool) :
    titleAux b (c :: cs) ≠ [] := by
  rw [titleAux_cons_form]
  simp

theorem lastNotSpace_titleAux (s : Str) :
    ∀ b : Bool, lastNotSpace (titleAux b s) = lastNotSpace s := by
  induction s with
  | nil => intro b; rfl
  | cons c cs ih =>
    intro b
    rw [titleAux_cons_form]
    cases cs with
    | nil =>
      by_cases hA : isAlphaC c = true
      · cases b with
        | true => simp [hA, titleAux, lastNotSpace, isSpaceC_toLowerC]
        | false => simp [hA, titleAux, lastNotSpace, isSpaceC_toUpperC]
      · simp only [Bool.not_eq_true] at hA
        simp [hA, titleAux]
    | cons d ds =>
      rw [lastNotSpace_cons_of_ne (titleAux_ne_nil d ds _),
        lastNotSpace_cons_of_ne (by simp : (d : Nat) :: ds ≠ [])]
      exact ih _

theorem packedB_titleAux (s : Str) :
    ∀ b : Bool, packedB (titleAux b s) = packedB s := by
  induction s with
  | nil => intro b; rfl
  | cons c cs ih =>
    intro b
    rw [titleAux_cons_form]
    simp only [packedB]
    rw [ih (isAlphaC c)]
    congr 1
    by_cases hA : isAlphaC c = true
    · have hsp : isSpaceC (if b then toLowerC c else toUpperC c) = false := by
        cases b <;>
          simp [isSpaceC_toLowerC, isSpaceC_toUpperC, isSpaceC_of_alpha c hA]
      rw [hA, if_pos rfl, hsp, isSpaceC_of_alpha c hA]
      simp
    · simp only [Bool.not_eq_true] at hA
      rw [hA]
      simp only [Bool.false_eq_true, if_false]
      rw [headNotSpace_titleAux]

theorem titleAux_titleAux (s : Str) :
    ∀ b : Bool, titleAux b (titleAux b s) = titleAux b s := by
  induction s with
  | nil => intro b; rfl
  | cons c cs ih =>
    intro b
    rw [titleAux_cons_form, titleAux_cons_form]
    by_cases hA : isAlphaC c = true
    · cases b with
      | true => simp [hA, isAlphaC_toLowerC, toLowerC_toLowerC, ih]
      | false => simp [hA, isAlphaC_toUpperC, toUpperC_toUpperC, ih]
    · simp only [Bool.not_eq_true] at hA
      rw [hA]
      simp only [Bool.false_eq_true, if_false]
      rw [hA]
      simp only [Bool.false_eq_true, if_false]
      rw [ih]

theorem headNotSpace_normT (s : Str) : headNotSpace (normT s) = true :=
  collapseAux_headNotSpace false (headNotSpace_strip s)

theorem lastNotSpace_normT (s : Str) : lastNotSpace (normT s) = true :=
  collapseAux_lastNotSpace _ false (lastNotSpace_strip s)

theorem packedB_normT (s : Str) : packedB (normT s) = true :=
  packedB_collapseAux _ false

theorem normT_of_invariant {z : Str} (h1 : headNotSpace z = true)
    (h2 : lastNotSpace z = true) (h3 : packedB z = true) : normT z = z := by
  unfold normT
  rw [strip_eq_self h1 h2]
  exact (collapseAux_eq_self z h3).1

theorem normT_idem (s : Str) : normT (normT s) = normT s :=
  normT_of_invariant (headNotSpace_normT s) (lastNotSpace_normT s) (packedB_normT s)

theorem normL_idem (s : Str) : normL (normL s) = normL s := by
  unfold normL
  have hH : headNotSpace (titlecase (normT s)) = true := by
    unfold titlecase
    rw [headNotSpace_titleAux]
    exact headNotSpace_normT s
  have hL : lastNotSpace (titlecase (normT s)) = true := by
    unfold titlecase
    rw [lastNotSpace_titleAux]
    exact lastNotSpace_normT s
  have hP : packedB (titlecase (normT s)) = true := by
    unfold titlecase
    rw [packedB_titleAux]
    exact packedB_normT s
  rw [normT_of_invariant hH hL hP]
  unfold titlecase
  exact titleAux_titleAux (normT s) false

theorem normT_comp : normT ∘ normT = normT := funext normT_idem

theorem normL_comp : normL ∘ normL = normL := funext normL_idem

theorem normRow_idem (hT hL : Bool) (r : Row) :
    normRow hT hL (normRow hT hL r) = normRow hT hL r := by
  cases r
  cases hT <;> cases hL <;>
    simp [normRow, normT_comp, normL_comp]

/-- **C8** — The Text Normalizer is idempotent: applying
`clean_text_fields` twice yields the same dataset as applying it once. -/
theorem c8_text_normalizer_idempotent (df : Frame) :
    clean_text_fields (clean_text_fields df) = clean_text_fields df := by
  cases df with
  | mk t l p b a f pp rows =>
    simp only [clean_text_fields, List.map_map]
    simp [Function.comp, normRow_idem]

/-! ## Quantile lemmas for the Outlier Filter -/

theorem q1_one (a : Rat) : q1Of [a] = a := by
  norm_num [q1Of, interpAt]

theorem q3_one (a : Rat) : q3Of [a] = a := by
  norm_num [q3Of, interpAt]

theorem q1_two (a b : Rat) : q1Of [a, b] = a + (1 / 4) * (b - a) := by
  norm_num [q1Of, interpAt]

theorem q3_two (a b : Rat) : q3Of [a, b] = a + (3 / 4) * (b - a) := by
  norm_num [q3Of, interpAt]

theorem q1_three (a b c : Rat) : q1Of [a, b, c] = a + (1 / 2) * (b - a) := by
  norm_num [q1Of, interpAt]

theorem q3_three (a b c : Rat) : q3Of [a, b, c] = b + (1 / 2) * (c - b) := by
  norm_num [q3Of, interpAt]

/-- On a sorted price list of fewer than 4 entries the loose IQR bounds
contain every entry. -/
theorem small_bounds {s : List Rat} (hs : List.Pairwise (fun a b : Rat => a ≤ b) s)
    (hlen : s.length ≤ 3) {q : Rat} (hq : q ∈ s) :
    q1Of s - 3 * (q3Of s - q1Of s) ≤ q ∧ q ≤ q3Of s + 3 * (q3Of s - q1Of s) := by
  rcases s with _ | ⟨a, _ | ⟨b, _ | ⟨c, _ | ⟨d, t⟩⟩⟩⟩
  · cases hq
  · have hqa : q = a := by simpa using hq
    subst hqa
    rw [q1_one, q3_one]
    constructor <;> linarith
  · have hab : a ≤ b := List.rel_of_pairwise_cons hs (by simp)
    have hqm : q = a ∨ q = b := by simpa using hq
    rw [q1_two, q3_two]
    rcases hqm with rfl | rfl <;> constructor <;> linarith
  · have hab : a ≤ b := List.rel_of_pairwise_cons hs (by simp)
    have hac : a ≤ c := List.rel_of_pairwise_cons hs (by simp)
    have hbc : b ≤ c := List.rel_of_pairwise_cons (List.Pairwise.of_cons hs) (by simp)
    have hqm : q = a ∨ q = b ∨ q = c := by simpa using hq
    rw [q1_three, q3_three]
    rcases hqm with rfl | rfl | rfl <;> constructor <;> linarith
  · exfalso
    simp only [List.length_cons] at hlen
    omega

theorem sortR_pairwise (l : List Rat) :
    List.Pairwise (fun a b : Rat => a ≤ b) (sortR l) :=
  List.sorted_insertionSort (fun a b : Rat => a ≤ b) l

theorem sortR_perm (l : List Rat) : (sortR l).Perm l :=
  List.perm_insertionSort (fun a b : Rat => a ≤ b) l

theorem length_filterMap_price {rows : List Row}
    (hp : ∀ r ∈ rows, r.price.isSome = true) :
    (rows.filterMap (fun r => r.price)).length = rows.length := by
  induction rows with
  | nil => rfl
  | cons r rs ih =>
    obtain ⟨q, hq⟩ := Option.isSome_iff_exists.mp (hp r (by simp))
    simp only [List.filterMap_cons, hq, List.length_cons]
    rw [ih (fun x hx => hp x (by simp [hx]))]

theorem clean_price_small (df : Frame)
    (hp : ∀ r ∈ df.rows, r.price.isSome = true)
    (hlen : df.rows.length < 4) : clean_price df = df := by
  by_cases h : df.hasPrice = true
  · simp only [clean_price, h, if_true]
    have hfix : df.rows.filter (keepRow (priceBounds df)) = df.rows := by
      rw [List.filter_eq_self]
      intro r hr
      obtain ⟨q, hq⟩ := Option.isSome_iff_exists.mp (hp r hr)
      have hqmem : q ∈ df.rows.filterMap (fun r => r.price) :=
        List.mem_filterMap.mpr ⟨r, hr, hq⟩
      have hne : df.rows.filterMap (fun r => r.price) ≠ [] := by
        intro hnil
        rw [hnil] at hqmem
        cases hqmem
      have hemp : (df.rows.filterMap (fun r => r.price)).isEmpty = false := by
        simpa [List.isEmpty_iff] using hne
      have hq_s : q ∈ sortR (df.rows.filterMap (fun r => r.price)) :=
        (sortR_perm _).mem_iff.mpr hqmem
      have hlen_s : (sortR (df.rows.filterMap (fun r => r.price))).length ≤ 3 := by
        rw [(sortR_perm _).length_eq, length_filterMap_price hp]
        omega
      have hb := small_bounds (sortR_pairwise _) hlen_s hq_s
      simp only [priceBounds, hemp, Bool.false_eq_true, if_false, keepRow, hq,
        Bool.and_eq_true, decide_eq_true_eq]
      exact ⟨by linarith [hb.1], by linarith [hb.2]⟩
    rw [hfix, ← h]
  · simp only [Bool.not_eq_true] at h
    simp [clean_price, h]

/-- **C4** — The Outlier Filter keeps exactly the records whose price
lies inside `[Q1 - 3*IQR, Q3 + 3*IQR]` of the pre-filter price
distribution (with `Q1`, `Q3` linearly interpolated), is a no-op
without a price column, and removes nothing from a dataset of fewer
than 4 records (all of whose prices are present, as the data model
requires). -/
theorem c4_outlier_filter (df : Frame)
    (hp : ∀ r ∈ df.rows, r.price.isSome = true) :
    (df.hasPrice = true →
      (clean_price df).rows = df.rows.filter (keepRow (priceBounds df))) ∧
    (df.hasPrice = false → clean_price df = df) ∧
    (df.rows.length < 4 → clean_price df = df) := by
  refine ⟨?_, ?_, fun hlen => clean_price_small df hp hlen⟩
  · intro h
    simp [clean_price, h]
  · intro h
    simp [clean_price, h]

def frameC4w : Frame :=
  ⟨true, true, true, false, false, false, false,
    [⟨some [65], some [88], some 10, none, none, none, .nan⟩,
     ⟨some [66], some [88], some 20, none, none, none, .nan⟩,
     ⟨some [67], some [88], some 1000000, none, none, none, .nan⟩]⟩

/-- Witness for `c4_outlier_filter` at a concrete 3-row frame with a
far-outlying price. -/
theorem c4_witness :
    (∀ r ∈ frameC4w.rows, r.price.isSome = true) ∧
    frameC4w.rows.length < 4 ∧ clean_price frameC4w = frameC4w :=
  ⟨by decide, by decide, (c4_outlier_filter frameC4w (by decide)).2.2 (by decide)⟩

/-! ## The Missing-Value Resolver -/

theorem filterMap_area_map_fillBhk (m : Rat) (l : List Row) :
    (l.map (fillBhkRow m)).filterMap (fun r => r.area_sqft) =
      l.filterMap (fun r => r.area_sqft) := by
  rw [List.filterMap_map]
  rfl

theorem fillOpt_preserve (m1 m2 : Option Rat) (r : Row) :
    (fillOptArea m2 (fillOptBhk m1 r)).title = r.title ∧
    (fillOptArea m2 (fillOptBhk m1 r)).location = r.location ∧
    (fillOptArea m2 (fillOptBhk m1 r)).price = r.price ∧
    (fillOptArea m2 (fillOptBhk m1 r)).furnishing = r.furnishing := by
  cases m1 <;> cases m2 <;> exact ⟨rfl, rfl, rfl, rfl⟩

theorem hmv_eq_resolverSpec (df out : Frame)
    (h : handle_missing_values df = .ok out) : out = resolverSpec df := by
  unfold handle_missing_values at h
  by_cases h1 : (df.hasTitle && df.hasPrice && df.hasLocation) = true
  · rw [if_pos h1] at h
    by_cases h2 : df.hasBhk = true
    · rw [if_pos h2] at h
      cases hm : modeLow ((dropCritical df.rows).filterMap (fun r => r.bhk)) with
      | none => rw [hm] at h; cases h
      | some m =>
        rw [hm] at h
        injection h with h
        rw [← h]
        unfold areaStep resolverSpec
        rw [filterMap_area_map_fillBhk]
        by_cases h3 : df.hasArea = true
        · rw [if_pos h3]
          cases hMed : medianOpt ((dropCritical df.rows).filterMap
              (fun r => r.area_sqft)) with
          | some v =>
            simp [h2, h3, hm, hMed, fillOptBhk, fillOptArea, List.map_map,
              Function.comp]
          | none =>
            simp [h2, h3, hm, hMed, fillOptBhk, fillOptArea]
        · simp only [Bool.not_eq_true] at h3
          simp [h2, h3, hm, fillOptBhk, fillOptArea]
    · simp only [Bool.not_eq_true] at h2
      rw [if_neg (by simp [h2])] at h
      injection h with h
      rw [← h]
      unfold areaStep resolverSpec
      by_cases h3 : df.hasArea = true
      · rw [if_pos h3]
        cases hMed : medianOpt ((dropCritical df.rows).filterMap
            (fun r => r.area_sqft)) with
        | some v =>
          simp [h2, h3, hMed, fillOptBhk, fillOptArea]
        | none =>
          simp [h2, h3, hMed, fillOptBhk, fillOptArea]
      · simp only [Bool.not_eq_true] at h3
        simp [h2, h3, fillOptBhk, fillOptArea]
  · rw [if_neg h1] at h
    cases h

theorem resolverSpec_critical (df : Frame) :
    ∀ r ∈ (resolverSpec df).rows,
      r.title.isSome = true ∧ r.price.isSome = true ∧ r.location.isSome = true := by
  intro r hr
  unfold resolverSpec at hr
  simp only [List.mem_map] at hr
  obtain ⟨r0, hr0, rfl⟩ := hr
  have hmem := List.mem_filter.mp hr0
  simp only [Bool.and_eq_true] at hmem
  obtain ⟨-, ⟨ht, hp⟩, hl⟩ := hmem
  obtain ⟨hT, hL, hP, -⟩ := fillOpt_preserve _ _ r0
  rw [hT, hL, hP]
  exact ⟨ht, hp, hl⟩

/-- **C7** — The Missing-Value Resolver drops every record missing
title, price or location, then fills missing `bhk` with the mode and
missing `area_sqft` with the median, both statistics computed over the
data remaining after the drop phase; afterwards every record has
non-null title, price and location.  (Stated for the runs in which the
stage returns — see C2 for the raise on an empty `bhk` column.) -/
theorem c7_missing_value_resolver (df out : Frame)
    (h : handle_missing_values df = .ok out) :
    out = resolverSpec df ∧
    ∀ r ∈ out.rows,
      r.title.isSome = true ∧ r.price.isSome = true ∧ r.location.isSome = true := by
  have heq := hmv_eq_resolverSpec df out h
  subst heq
  exact ⟨rfl, resolverSpec_critical df⟩

/-- Witness for `c7_missing_value_resolver` at a concrete frame with a
dropped record and an imputed `bhk`. -/
theorem c7_witness :
    frameC7out = resolverSpec frameC7w ∧
    ∀ r ∈ frameC7out.rows,
      r.title.isSome = true ∧ r.price.isSome = true ∧ r.location.isSome = true :=
  c7_missing_value_resolver frameC7w frameC7out (by decide)

/-! ## The Field Backfiller -/

theorem furnOf_mem : ∀ v : Fin 3, furnOf v ∈ furnishing_options := by decide

theorem mapIdx_backfill_furnishing (l : List Row) :
    ∀ rng : Nat → Fin 3, ∀ r ∈ l.mapIdx (backfillRow rng),
      ∃ v ∈ furnishing_options, r.furnishing = some v := by
  induction l with
  | nil =>
    intro rng r hr
    cases hr
  | cons a t ih =>
    intro rng r hr
    rw [List.mapIdx_cons] at hr
    rcases List.mem_cons.mp hr with h | h
    · exact ⟨furnOf (rng 0), furnOf_mem _, by rw [h]; rfl⟩
    · have hfn : (fun i => backfillRow rng (i + 1)) =
          backfillRow (fun i => rng (i + 1)) := by
        funext i r2
        rfl
      rw [hfn] at h
      exact ih (fun i => rng (i + 1)) r h

/-- **C9** — If the furnishing column is absent, the Field Backfiller
makes it present on every record with a value from the 3-element
options list; if the column is present, the stage leaves the dataset
unchanged. -/
theorem c9_field_backfiller (df : Frame) (rng : Nat → Fin 3) :
    (df.hasFurnishing = false →
      (add_furnishing_status df rng).hasFurnishing = true ∧
      ∀ r ∈ (add_furnishing_status df rng).rows,
        ∃ v ∈ furnishing_options, r.furnishing = some v) ∧
    (df.hasFurnishing = true → add_furnishing_status df rng = df) := by
  constructor
  · intro h
    simp only [add_furnishing_status, h, Bool.false_eq_true, if_false]
    exact ⟨by trivial, mapIdx_backfill_furnishing df.rows rng⟩
  · intro h
    simp [add_furnishing_status, h]

/-- Witness for `c9_field_backfiller` at a concrete frame without a
furnishing column. -/
theorem c9_witness :
    (add_furnishing_status frameC9w rngZero).hasFurnishing = true ∧
    ∀ r ∈ (add_furnishing_status frameC9w rngZero).rows,
      ∃ v ∈ furnishing_options, r.furnishing = some v :=
  (c9_field_backfiller frameC9w rngZero).1 rfl

/-! ## Order preservation -/

theorem dedupAux_sublist (rows : List Row) :
    ∀ seen, (dedupAux rows seen).Sublist rows := by
  induction rows with
  | nil =>
    intro seen
    exact List.Sublist.refl []
  | cons r rs ih =>
    intro seen
    by_cases h : rowKey r ∈ seen
    · simp only [dedupAux, if_pos h]
      exact (ih seen).cons r
    · simp only [dedupAux, if_neg h]
      exact (ih (rowKey r :: seen)).cons₂ r

theorem mapIdx_id_row (l : List Row) : l.mapIdx (fun _ r => r) = l := by
  induction l with
  | nil => rfl
  | cons a t ih =>
    rw [List.mapIdx_cons]
    exact congrArg (List.cons a) ih

theorem hmv_shape (df out : Frame) (h : handle_missing_values df = .ok out) :
    ∃ g : Row → Row,
      (∀ r, (g r).title = r.title ∧ (g r).location = r.location ∧
        (g r).price = r.price ∧ (g r).furnishing = r.furnishing) ∧
      out = { df with rows := (dropCritical df.rows).map g } := by
  have heq := hmv_eq_resolverSpec df out h
  subst heq
  refine ⟨fun r => fillOptArea
      (if df.hasArea then
        medianOpt ((dropCritical df.rows).filterMap (fun s : Row => s.area_sqft))
       else none)
      (fillOptBhk
        (if df.hasBhk then
          modeLow ((dropCritical df.rows).filterMap (fun s : Row => s.bhk))
         else none) r),
    fun r => ?_, rfl⟩
  exact ⟨(fillOpt_preserve _ _ r).1, (fillOpt_preserve _ _ r).2.1,
    (fillOpt_preserve _ _ r).2.2.1, (fillOpt_preserve _ _ r).2.2.2⟩

/-- **C10** — Every pipeline stage preserves the relative order of the
surviving records: stages only delete rows (the surviving rows form a
sublist) or rewrite fields in place (the output is a map, or an
index-wise map, of the input rows). -/
theorem c10_order_preservation (df : Frame) (rng : Nat → Fin 3) :
    (∀ out, remove_duplicates df = .ok out → out.rows.Sublist df.rows) ∧
    (∀ out, handle_missing_values df = .ok out →
      ∃ g : Row → Row, out.rows.Sublist (df.rows.map g)) ∧
    (clean_price df).rows.Sublist df.rows ∧
    (∃ g : Row → Row, (clean_text_fields df).rows = df.rows.map g) ∧
    (∃ g : Row → Row, (calculate_derived_metrics df).rows = df.rows.map g) ∧
    (∃ g : Nat → Row → Row,
      (add_furnishing_status df rng).rows = df.rows.mapIdx g) ∧
    (∀ out issues, validate_data df = .ok (out, issues) → out = df) := by
  refine ⟨?_, ?_, ?_, ?_, ?_, ?_, ?_⟩
  · intro out h
    unfold remove_duplicates at h
    by_cases hc : (df.hasTitle && df.hasLocation) = true
    · rw [if_pos hc] at h
      injection h with h
      rw [← h]
      exact dedupAux_sublist df.rows []
    · rw [if_neg hc] at h
      cases h
  · intro out h
    obtain ⟨g, hg, hout⟩ := hmv_shape df out h
    refine ⟨g, ?_⟩
    rw [hout]
    exact List.Sublist.map g (List.filter_sublist df.rows)
  · by_cases hc : df.hasPrice = true
    · simp only [clean_price, hc, if_true]
      exact List.filter_sublist df.rows
    · simp only [Bool.not_eq_true] at hc
      simp only [clean_price, hc, Bool.false_eq_true, if_false]
      exact List.Sublist.refl df.rows
  · exact ⟨normRow df.hasTitle df.hasLocation, rfl⟩
  · by_cases hc : (df.hasPrice && df.hasArea) = true
    · simp only [calculate_derived_metrics, hc, if_true]
      exact ⟨ppsRow, rfl⟩
    · simp only [calculate_derived_metrics, hc, Bool.false_eq_true, if_false]
      exact ⟨id, (List.map_id df.rows).symm⟩
  · by_cases hc : df.hasFurnishing = true
    · simp only [add_furnishing_status, hc, if_true]
      exact ⟨fun _ r => r, (mapIdx_id_row df.rows).symm⟩
    · simp only [Bool.not_eq_true] at hc
      simp only [add_furnishing_status, hc, Bool.false_eq_true, if_false]
      exact ⟨backfillRow rng, rfl⟩
  · intro out issues h
    unfold validate_data at h
    by_cases hc : df.hasPrice = true
    · rw [if_pos hc] at h
      injection h with h
      injection h with h1 h2
      exact h1.symm
    · rw [if_neg hc] at h
      cases h

/-- Witness for `c10_order_preservation` at a concrete frame, with the
fallible stages evaluated. -/
theorem c10_witness :
    frameC9w.rows.Sublist frameC9w.rows ∧
    (∃ g : Row → Row, frameC9w.rows.Sublist (frameC9w.rows.map g)) ∧
    (clean_price frameC9w).rows.Sublist frameC9w.rows :=
  ⟨(c10_order_preservation frameC9w rngZero).1 frameC9w (by decide),
   (c10_order_preservation frameC9w rngZero).2.1 frameC9w (by decide),
   (c10_order_preservation frameC9w rngZero).2.2.1⟩

/-! ## Evaluating the pipeline on concrete frames -/

theorem except_ok_bind {α β : Type} (a : α) (f : α → Except PyErr β) :
    (Except.ok a >>= f) = f a := rfl

theorem process_all_eq (df d1 d2 : Frame) (rng : Nat → Fin 3)
    (h1 : remove_duplicates df = .ok d1)
    (h2 : handle_missing_values d1 = .ok d2) :
    process_all df rng =
      validate_data (add_furnishing_status
        (calculate_derived_metrics (clean_text_fields (clean_price d2))) rng) := by
  unfold process_all
  rw [h1, except_ok_bind, h2, except_ok_bind]

/-- **C2** — An empty dataset whose columns include `bhk` makes
`handle_missing_values` raise (`mode()[0]` indexes an empty series), so
the pipeline aborts; with the `bhk` column absent the same empty
dataset flows through every stage into an empty output with zero
warnings. -/
theorem c2_empty_bhk_raises :
    handle_missing_values frameEmptyBhk = .error .keyErr ∧
    process_all frameEmptyBhk rngZero = .error .keyErr ∧
    process_all { frameEmptyBhk with hasBhk := false } rngZero =
      .ok (⟨true, true, true, false, true, true, true, []⟩, []) := by
  refine ⟨by decide, by decide, by decide⟩

/-- **C3** counterexample — on a record with `price = 800` and
`area_sqft = 0` the Derived-Metric Calculator sets `price_per_sqft` to
`+inf` (a present, non-missing value), not to an unset cell. -/
theorem c3_counterexample :
    ((calculate_derived_metrics frameC3).rows.getD 0 row0).pps = DVal.pinf ∧
    DVal.pinf ≠ DVal.nan := by decide

/-- **C3** (amended) — with both columns present the stage maps every
record through `(price / area_sqft).round(2)`: the result is
`round2 (p / a)` for `area_sqft = a ≠ 0`, `NaN` (missing) when
`area_sqft` is missing, and a signed infinity when `area_sqft = 0` and
the price is nonzero; the stage is total (it cannot raise), but there
is no explicit division-by-zero guard leaving the cell unset. -/
theorem c3_derived_metrics (df : Frame)
    (hp : df.hasPrice = true) (ha : df.hasArea = true) :
    (calculate_derived_metrics df).rows = df.rows.map ppsRow ∧
    (∀ r : Row, r.area_sqft = none → (ppsRow r).pps = DVal.nan) ∧
    (∀ r : Row, ∀ p a : Rat, r.price = some p → r.area_sqft = some a → a ≠ 0 →
      (ppsRow r).pps = DVal.fin (round2 (p / a))) ∧
    (∀ r : Row, ∀ p : Rat, r.price = some p → r.area_sqft = some 0 → 0 < p →
      (ppsRow r).pps = DVal.pinf) ∧
    (∀ r : Row, ∀ p : Rat, r.price = some p → r.area_sqft = some 0 → p < 0 →
      (ppsRow r).pps = DVal.ninf) := by
  refine ⟨?_, ?_, ?_, ?_, ?_⟩
  · simp [calculate_derived_metrics, hp, ha]
  · intro r h
    cases hr : r.price <;> simp [ppsRow, fdiv, h, hr, round2D]
  · intro r p a h1 h2 h3
    simp [ppsRow, fdiv, h1, h2, h3, round2D]
  · intro r p h1 h2 hpos
    have h4 : ¬((0 : Rat) < p → False) := fun hc => hc hpos
    simp [ppsRow, fdiv, h1, h2, round2D, hpos]
  · intro r p h1 h2 hneg
    have h4 : ¬(0 : Rat) < p := by linarith
    simp [ppsRow, fdiv, h1, h2, round2D, h4, hneg]

/-- Witness for `c3_derived_metrics` at `frameC3`. -/
theorem c3_witness :
    (calculate_derived_metrics frameC3).rows = frameC3.rows.map ppsRow ∧
    (∀ r : Row, r.area_sqft = none → (ppsRow r).pps = DVal.nan) ∧
    (∀ r : Row, ∀ p a : Rat, r.price = some p → r.area_sqft = some a → a ≠ 0 →
      (ppsRow r).pps = DVal.fin (round2 (p / a))) ∧
    (∀ r : Row, ∀ p : Rat, r.price = some p → r.area_sqft = some 0 → 0 < p →
      (ppsRow r).pps = DVal.pinf) ∧
    (∀ r : Row, ∀ p : Rat, r.price = some p → r.area_sqft = some 0 → p < 0 →
      (ppsRow r).pps = DVal.ninf) :=
  c3_derived_metrics frameC3 rfl rfl

/-- **C6** counterexample — the Loader returns a dataset read from a
readable source even though the required `title` column is absent. -/
theorem c6_counterexample :
    load_data (some "f") none (fun _ => some frameNoTitle) = .ok frameNoTitle ∧
    frameNoTitle.hasTitle = false := ⟨rfl, rfl⟩

/-- **C6** (amended) — the Loader fails exactly when no source is
specified or the source is unreadable; it performs no column
validation: whatever frame a readable source yields, required columns
present or not, is returned unchanged. -/
theorem c6_loader (fp : String) (rd : String → Option Frame) (F : Frame) :
    load_data (some fp) none (fun _ => some F) = .ok F ∧
    load_data none (some fp) (fun _ => some F) = .ok F ∧
    load_data (some fp) none (fun _ => none) = .error .readFail ∧
    load_data none (some fp) (fun _ => none) = .error .readFail ∧
    load_data none none rd = .error .noInput :=
  ⟨rfl, rfl, rfl, rfl, rfl⟩

/-- **C1** counterexample — two records differing only by a trailing
space survive deduplication and are normalized into the identical
(title, location) pair, so the final dataset holds two records sharing
the pair ("A", "X"). -/
theorem c1_counterexample :
    process_all frameC1 rngZero = .ok (frameC1out, []) ∧
    frameC1out.rows.length = 2 ∧
    rowKey (frameC1out.rows.getD 0 row0) =
      rowKey (frameC1out.rows.getD 1 row0) := by
  refine ⟨?_, by decide, by decide⟩
  have h1 : remove_duplicates frameC1 = .ok frameC1 := by decide
  have h2 : handle_missing_values frameC1 = .ok frameC1 := by decide
  rw [process_all_eq frameC1 frameC1 frameC1 rngZero h1 h2]
  rw [clean_price_small frameC1 (by decide) (by decide)]
  decide

/-- **C5** counterexample — a record whose `furnishing` cell is missing
while the column exists keeps the missing cell through the whole
pipeline: the Field Backfiller is a no-op on a present column. -/
theorem c5_counterexample :
    process_all frameC5 rngZero = .ok (frameC5out, []) ∧
    frameC5out.hasFurnishing = true ∧
    (frameC5out.rows.getD 0 row0).furnishing = none ∧
    frameC5out.rows.length = 1 := by
  refine ⟨?_, by decide, by decide, by decide⟩
  have h1 : remove_duplicates frameC5 = .ok frameC5 := by decide
  have h2 : handle_missing_values frameC5 = .ok frameC5 := by decide
  rw [process_all_eq frameC5 frameC5 frameC5 rngZero h1 h2]
  rw [clean_price_small frameC5 (by decide) (by decide)]
  decide

/-! ## Tracing rows through a successful pipeline run -/

theorem except_error_bind {α β : Type} (e : PyErr) (f : α → Except PyErr β) :
    ((Except.error e : Except PyErr α) >>= f) = Except.error e := rfl

theorem process_all_shape (df : Frame) (rng : Nat → Fin 3) (out : Frame)
    (issues : List Issue) (h : process_all df rng = .ok (out, issues)) :
    ∃ d1 d2, remove_duplicates df = .ok d1 ∧ handle_missing_values d1 = .ok d2 ∧
      out = add_furnishing_status
        (calculate_derived_metrics (clean_text_fields (clean_price d2))) rng := by
  unfold process_all at h
  cases h1 : remove_duplicates df with
  | error e =>
    rw [h1, except_error_bind] at h
    cases h
  | ok d1 =>
    rw [h1, except_ok_bind] at h
    cases h2 : handle_missing_values d1 with
    | error e =>
      rw [h2, except_error_bind] at h
      cases h
    | ok d2 =>
      rw [h2, except_ok_bind] at h
      refine ⟨d1, d2, rfl, h2, ?_⟩
      unfold validate_data at h
      by_cases hv : (add_furnishing_status
          (calculate_derived_metrics (clean_text_fields (clean_price d2)))
          rng).hasPrice = true
      · rw [if_pos hv] at h
        injection h with h
        injection h with ha hb
        exact ha.symm
      · rw [if_neg hv] at h
        cases h

theorem remove_duplicates_shape (df d1 : Frame)
    (h : remove_duplicates df = .ok d1) :
    d1 = { df with rows := dedupAux df.rows [] } := by
  unfold remove_duplicates at h
  by_cases hc : (df.hasTitle && df.hasLocation) = true
  · rw [if_pos hc] at h
    injection h with h
    exact h.symm
  · rw [if_neg hc] at h
    cases h

theorem dedupAux_key_distinct (rows : List Row) :
    ∀ seen, (dedupAux rows seen).Pairwise (fun r s => rowKey r ≠ rowKey s) ∧
      ∀ r ∈ dedupAux rows seen, rowKey r ∉ seen := by
  induction rows with
  | nil =>
    intro seen
    refine ⟨List.Pairwise.nil, ?_⟩
    intro r hr
    cases hr
  | cons r rs ih =>
    intro seen
    by_cases h : rowKey r ∈ seen
    · simp only [dedupAux, if_pos h]
      exact ih seen
    · simp only [dedupAux, if_neg h]
      obtain ⟨hpw, hns⟩ := ih (rowKey r :: seen)
      refine ⟨List.Pairwise.cons ?_ hpw, ?_⟩
      · intro s hs hk
        exact hns s hs (by rw [← hk]; exact List.mem_cons_self _ _)
      · intro s hs
        rcases List.mem_cons.mp hs with rfl | hs2
        · exact h
        · intro hmem
          exact hns s hs2 (List.mem_cons_of_mem _ hmem)

theorem pairwise_key_map {l : List Row} {f : Row → Row}
    (hf : ∀ r ∈ l, rowKey (f r) = rowKey r)
    (h : l.Pairwise (fun r s => rowKey r ≠ rowKey s)) :
    (l.map f).Pairwise (fun r s => rowKey r ≠ rowKey s) := by
  rw [List.pairwise_map]
  refine h.imp_of_mem ?_
  intro a b ha hb hab
  rw [hf a ha, hf b hb]
  exact hab

theorem keys_mapIdx (l : List Row) :
    ∀ f : Nat → Row → Row, (∀ i r, rowKey (f i r) = rowKey r) →
      (l.mapIdx f).map rowKey = l.map rowKey := by
  induction l with
  | nil =>
    intro f hf
    rfl
  | cons a t ih =>
    intro f hf
    rw [List.mapIdx_cons]
    simp only [List.map_cons]
    rw [hf 0 a]
    exact congrArg (List.cons (rowKey a)) (ih (fun i => f (i + 1)) (fun i r => hf (i + 1) r))

theorem pairwise_key_mapIdx (l : List Row) (f : Nat → Row → Row)
    (hf : ∀ i r, rowKey (f i r) = rowKey r)
    (h : l.Pairwise (fun r s => rowKey r ≠ rowKey s)) :
    (l.mapIdx f).Pairwise (fun r s => rowKey r ≠ rowKey s) := by
  have h2 : List.Pairwise (fun a b => a ≠ b) (l.map rowKey) :=
    List.pairwise_map.mpr h
  rw [← keys_mapIdx l f hf] at h2
  exact List.pairwise_map.mp h2

theorem normRow_key_of_normed (hT hL : Bool) (r : Row)
    (hn : rowTextNormed r = true) :
    rowKey (normRow hT hL r) = rowKey r := by
  unfold rowTextNormed at hn
  simp only [Bool.and_eq_true] at hn
  obtain ⟨hnT, hnL⟩ := hn
  unfold rowKey normRow
  simp only [Prod.mk.injEq]
  constructor
  · cases hT
    · rfl
    · cases hrt : r.title
      · simp
      · rw [hrt] at hnT
        simp only [beq_iff_eq] at hnT
        simp [hnT]
  · cases hL
    · rfl
    · cases hrl : r.location
      · simp
      · rw [hrl] at hnL
        simp only [beq_iff_eq] at hnL
        simp [hnL]

theorem hmv_mem_trace (df out : Frame) (h : handle_missing_values df = .ok out) :
    ∀ r ∈ out.rows, ∃ r0 ∈ df.rows, r.title = r0.title ∧
      r.location = r0.location ∧ r.furnishing = r0.furnishing := by
  obtain ⟨g, hg, hout⟩ := hmv_shape df out h
  intro r hr
  rw [hout] at hr
  obtain ⟨r0, hr0, rfl⟩ := List.mem_map.mp hr
  exact ⟨r0, List.Sublist.mem hr0 (List.filter_sublist df.rows),
    (hg r0).1, (hg r0).2.1, (hg r0).2.2.2⟩

theorem clean_price_mem (df : Frame) (r : Row)
    (hr : r ∈ (clean_price df).rows) : r ∈ df.rows := by
  unfold clean_price at hr
  split at hr
  · exact List.Sublist.mem hr (List.filter_sublist df.rows)
  · exact hr

/-- **C1** (amended) — after a successful pipeline run on an input whose
title and location cells are already in normalized form (fixed points of
the Text Normalizer), no two records of the final dataset share the same
(title, location) pair.  In general the guarantee only covers the pairs
as they stood at deduplication time: records differing only in
whitespace or letter case are not merged, because deduplication runs
before text normalization (see the counterexample). -/
theorem c1_dedup_normalized (df : Frame) (rng : Nat → Fin 3) (out : Frame)
    (issues : List Issue)
    (hnorm : ∀ r ∈ df.rows, rowTextNormed r = true)
    (h : process_all df rng = .ok (out, issues)) :
    out.rows.Pairwise (fun r s => rowKey r ≠ rowKey s) := by
  obtain ⟨d1, d2, h1, h2, hout⟩ := process_all_shape df rng out issues h
  have hd1 := remove_duplicates_shape df d1 h1
  have hd1rows : d1.rows = dedupAux df.rows [] := by rw [hd1]
  have hpw1 : d1.rows.Pairwise (fun r s => rowKey r ≠ rowKey s) := by
    rw [hd1rows]
    exact (dedupAux_key_distinct df.rows []).1
  have hsub1 : d1.rows.Sublist df.rows := by
    rw [hd1rows]
    exact dedupAux_sublist df.rows []
  obtain ⟨g, hg, hd2⟩ := hmv_shape d1 d2 h2
  have hpw2 : d2.rows.Pairwise (fun r s => rowKey r ≠ rowKey s) := by
    rw [hd2]
    refine pairwise_key_map ?_
      (List.Pairwise.sublist (List.filter_sublist d1.rows) hpw1)
    intro r hr
    unfold rowKey
    rw [(hg r).1, (hg r).2.1]
  have hnorm2 : ∀ r ∈ d2.rows, rowTextNormed r = true := by
    intro r hr
    obtain ⟨r0, hr0, ht, hl, -⟩ := hmv_mem_trace d1 d2 h2 r hr
    have h0 := hnorm r0 (List.Sublist.mem hr0 hsub1)
    unfold rowTextNormed at h0 ⊢
    rw [ht, hl]
    exact h0
  have hsub3 : (clean_price d2).rows.Sublist d2.rows := by
    unfold clean_price
    split
    · exact List.filter_sublist d2.rows
    · exact List.Sublist.refl d2.rows
  have hpw3 : (clean_price d2).rows.Pairwise (fun r s => rowKey r ≠ rowKey s) :=
    List.Pairwise.sublist hsub3 hpw2
  have hnorm3 : ∀ r ∈ (clean_price d2).rows, rowTextNormed r = true :=
    fun r hr => hnorm2 r (List.Sublist.mem hr hsub3)
  have hpw4 : (clean_text_fields (clean_price d2)).rows.Pairwise
      (fun r s => rowKey r ≠ rowKey s) := by
    refine pairwise_key_map ?_ hpw3
    intro r hr
    exact normRow_key_of_normed _ _ r (hnorm3 r hr)
  have hpw5 : (calculate_derived_metrics
      (clean_text_fields (clean_price d2))).rows.Pairwise
      (fun r s => rowKey r ≠ rowKey s) := by
    unfold calculate_derived_metrics
    split
    · exact pairwise_key_map (fun r _ => rfl) hpw4
    · exact hpw4
  have hpw6 : (add_furnishing_status (calculate_derived_metrics
      (clean_text_fields (clean_price d2))) rng).rows.Pairwise
      (fun r s => rowKey r ≠ rowKey s) := by
    unfold add_furnishing_status
    split
    · exact hpw5
    · exact pairwise_key_mapIdx _ (backfillRow rng) (fun i r => rfl) hpw5
  rw [hout]
  exact hpw6

/-- Witness for `c1_dedup_normalized` at a concrete normalized 2-record
frame. -/
theorem c1_witness :
    frameC1wOut.rows.Pairwise (fun r s => rowKey r ≠ rowKey s) := by
  have h1 : remove_duplicates frameC1w = .ok frameC1w := by decide
  have h2 : handle_missing_values frameC1w = .ok frameC1w := by decide
  have hp : process_all frameC1w rngZero = .ok (frameC1wOut, []) := by
    rw [process_all_eq frameC1w frameC1w frameC1w rngZero h1 h2]
    rw [clean_price_small frameC1w (by decide) (by decide)]
    decide
  exact c1_dedup_normalized frameC1w rngZero frameC1wOut [] (by decide) hp

/-! ## Furnishing presence through the pipeline -/

theorem clean_price_hasFurnishing (df : Frame) :
    (clean_price df).hasFurnishing = df.hasFurnishing := by
  unfold clean_price
  split <;> rfl

theorem clean_text_hasFurnishing (df : Frame) :
    (clean_text_fields df).hasFurnishing = df.hasFurnishing := rfl

theorem metrics_hasFurnishing (df : Frame) :
    (calculate_derived_metrics df).hasFurnishing = df.hasFurnishing := by
  unfold calculate_derived_metrics
  split <;> rfl

theorem hmv_hasFurnishing (df out : Frame)
    (h : handle_missing_values df = .ok out) :
    out.hasFurnishing = df.hasFurnishing := by
  obtain ⟨g, -, hout⟩ := hmv_shape df out h
  rw [hout]

/-- **C5** (amended) — after a successful pipeline run, every record of
the final dataset has a furnishing value present, provided the input
either had no furnishing column at all (the Field Backfiller then
synthesizes one for every record) or had it with no missing cells.  A
record whose input furnishing cell is missing keeps the missing cell,
because the Field Backfiller does not impute partial missingness (see
the counterexample). -/
theorem c5_furnishing_present (df : Frame) (rng : Nat → Fin 3) (out : Frame)
    (issues : List Issue)
    (hfurn : df.hasFurnishing = false ∨ ∀ r ∈ df.rows, r.furnishing.isSome = true)
    (h : process_all df rng = .ok (out, issues)) :
    ∀ r ∈ out.rows, r.furnishing.isSome = true := by
  obtain ⟨d1, d2, h1, h2, hout⟩ := process_all_shape df rng out issues h
  have hd1 := remove_duplicates_shape df d1 h1
  have hflag : (calculate_derived_metrics
      (clean_text_fields (clean_price d2))).hasFurnishing = df.hasFurnishing := by
    rw [metrics_hasFurnishing, clean_text_hasFurnishing, clean_price_hasFurnishing,
      hmv_hasFurnishing d1 d2 h2, hd1]
  have htrace : ∀ r ∈ (calculate_derived_metrics
      (clean_text_fields (clean_price d2))).rows,
      ∃ r0 ∈ df.rows, r.furnishing = r0.furnishing := by
    intro r hr
    have hr4 : ∃ r4 ∈ (clean_text_fields (clean_price d2)).rows,
        r.furnishing = r4.furnishing := by
      revert hr
      unfold calculate_derived_metrics
      split
      · intro hr
        obtain ⟨r4, hr4, he⟩ := List.mem_map.mp hr
        exact ⟨r4, hr4, by rw [← he]; rfl⟩
      · intro hr
        exact ⟨r, hr, rfl⟩
    obtain ⟨r4, hr4, he4⟩ := hr4
    obtain ⟨r3, hr3, he3⟩ := List.mem_map.mp hr4
    have he34 : r4.furnishing = r3.furnishing := by
      rw [← he3]
      rfl
    have hr2 : r3 ∈ d2.rows := clean_price_mem d2 r3 hr3
    obtain ⟨r1, hr1, -, -, he21⟩ := hmv_mem_trace d1 d2 h2 r3 hr2
    have hr0 : r1 ∈ df.rows := by
      have hsub : d1.rows.Sublist df.rows := by
        rw [hd1]
        exact dedupAux_sublist df.rows []
      exact List.Sublist.mem hr1 hsub
    exact ⟨r1, hr0, by rw [he4, he34, he21]⟩
  rw [hout]
  unfold add_furnishing_status
  split
  · next hf5 =>
    have hdf : df.hasFurnishing = true := by
      rw [← hflag]
      exact hf5
    rcases hfurn with hfalse | hall
    · rw [hdf] at hfalse
      cases hfalse
    · intro r hr
      obtain ⟨r0, hr0, he⟩ := htrace r hr
      rw [he]
      exact hall r0 hr0
  · next hf5 =>
    intro r hr
    obtain ⟨v, -, hv⟩ := mapIdx_backfill_furnishing _ rng r hr
    rw [hv]
    rfl

/-- Witness for `c5_furnishing_present` at a concrete frame without a
furnishing column: both final records carry a synthesized value. -/
theorem c5_witness :
    (frameC1wOut.rows.getD 0 row0).furnishing.isSome = true ∧
    (frameC1wOut.rows.getD 1 row0).furnishing.isSome = true := by
  have h1 : remove_duplicates frameC1w = .ok frameC1w := by decide
  have h2 : handle_missing_values frameC1w = .ok frameC1w := by decide
  have hp : process_all frameC1w rngZero = .ok (frameC1wOut, []) := by
    rw [process_all_eq frameC1w frameC1w frameC1w rngZero h1 h2]
    rw [clean_price_small frameC1w (by decide) (by decide)]
    decide
  have hall := c5_furnishing_present frameC1w rngZero frameC1wOut [] (Or.inl rfl) hp
  exact ⟨hall _ (by decide), hall _ (by decide)⟩

end Rentmap
